import Mathlib

/-!
Verification of the file-level compression/decompression engine
(`programs/fileio.c`) against its natural-language specification.

The development shallowly embeds the pure decision logic of the C source:
buffers become `List Nat` (byte values), files written sequentially with
forward-only seeks become the list of bytes that can be read back (a seek
of `n` bytes over a fresh region reads back as `n` zero bytes once a later
write lands), and the C control flow becomes Lean functions over explicit
state.  Machine integers are modelled as `Nat`/`Int`; the one place where
32-bit unsigned overflow could matter (the sparse writer's `storedSkips`
accumulator) carries an explicit `% 2^32`.
-/

/-- Subset of `FIO_prefs_t` (fileio.c) used by the verified components.
`sparseFileSupport` is an integer in the source (0 = disabled, 1 = auto,
2 = forced); only zero/non-zero is ever tested by the sparse writer. -/
structure FIO_prefs_t where
  testMode : Bool
  sparseFileSupport : Nat
  overwrite : Bool
  removeSrcFile : Bool
  memLimit : Nat
  patchFromMode : Bool
  streamSrcSize : Nat
  nbWorkers : Nat
  minAdaptLevel : Int
  maxAdaptLevel : Int
  deriving Repr, DecidableEq

/-! ### List chunking

`fileio.c` walks buffers in fixed-size units: machine words of
`sizeof(size_t) = 8` bytes, 32 KB segments of words, and 64 KB read blocks.
`chunkList n l` splits `l` into consecutive chunks of length `n` (last one
possibly shorter), via structural fuel so the kernel can evaluate it. -/

def chunkGo (n : Nat) : Nat → List α → List (List α)
  | _, [] => []
  | 0, _ :: _ => []
  | fuel+1, a :: l => ((a :: l).take n) :: chunkGo n fuel ((a :: l).drop n)

def chunkList (n : Nat) (l : List α) : List (List α) :=
  if n = 0 then [] else chunkGo n l.length l

theorem chunkGo_flatten (n : Nat) (hn : 0 < n) :
    ∀ (fuel : Nat) (l : List α), l.length ≤ fuel → (chunkGo n fuel l).flatten = l := by
  intro fuel
  induction fuel with
  | zero =>
    intro l hl
    cases l with
    | nil => rfl
    | cons a l => simp at hl
  | succ fuel ih =>
    intro l hl
    cases l with
    | nil => rfl
    | cons a l =>
      have hdrop : ((a :: l).drop n).length ≤ fuel := by
        simp only [List.length_drop, List.length_cons] at *
        omega
      simp only [chunkGo, List.flatten_cons, ih _ hdrop, List.take_append_drop]

theorem chunkList_flatten (n : Nat) (hn : 0 < n) (l : List α) :
    (chunkList n l).flatten = l := by
  unfold chunkList
  rw [if_neg (Nat.pos_iff_ne_zero.mp hn)]
  exact chunkGo_flatten n hn l.length l (Nat.le_refl _)

theorem chunkGo_mem_length (n : Nat) :
    ∀ (fuel : Nat) (l : List α) (c : List α),
      c ∈ chunkGo n fuel l → c.length ≤ n := by
  intro fuel
  induction fuel with
  | zero =>
    intro l c hc
    cases l with
    | nil => simp [chunkGo] at hc
    | cons a l => simp [chunkGo] at hc
  | succ fuel ih =>
    intro l c hc
    cases l with
    | nil => simp [chunkGo] at hc
    | cons a l =>
      simp only [chunkGo, List.mem_cons] at hc
      rcases hc with hc | hc
      · subst hc
        simp [List.length_take]
      · exact ih _ _ hc

theorem chunkList_mem_length (n : Nat) (l : List α) (c : List α)
    (hc : c ∈ chunkList n l) : c.length ≤ n := by
  unfold chunkList at hc
  by_cases hn : n = 0
  · simp [hn] at hc
  · rw [if_neg hn] at hc
    exact chunkGo_mem_length n l.length l c hc

theorem chunkGo_mem_length_dvd (n : Nat) (hn : 0 < n) :
    ∀ (fuel : Nat) (l : List α) (c : List α),
      n ∣ l.length → c ∈ chunkGo n fuel l → c.length = n := by
  intro fuel
  induction fuel with
  | zero =>
    intro l c hdvd hc
    cases l with
    | nil => simp [chunkGo] at hc
    | cons a l => simp [chunkGo] at hc
  | succ fuel ih =>
    intro l c hdvd hc
    cases l with
    | nil => simp [chunkGo] at hc
    | cons a l =>
      simp only [chunkGo, List.mem_cons] at hc
      have hlen : n ≤ (a :: l).length := by
        rcases hdvd with ⟨k, hk⟩
        rcases k with _ | k
        · simp at hk
        · simp [hk, Nat.mul_succ]
      rcases hc with hc | hc
      · subst hc
        simp only [List.length_take]
        exact Nat.min_eq_left hlen
      · have : n ∣ ((a :: l).drop n).length := by
          rcases hdvd with ⟨k, hk⟩
          refine ⟨k - 1, ?_⟩
          simp only [List.length_drop, hk]
          rcases k with _ | k
          · simp at hk
          · simp [Nat.succ_mul, Nat.mul_succ]
        exact ih _ _ this hc

theorem chunkList_mem_length_dvd (n : Nat) (hn : 0 < n) (l : List α)
    (hdvd : n ∣ l.length) (c : List α) (hc : c ∈ chunkList n l) :
    c.length = n := by
  unfold chunkList at hc
  rw [if_neg (Nat.pos_iff_ne_zero.mp hn)] at hc
  exact chunkGo_mem_length_dvd n hn l.length l c hdvd hc

theorem chunkList_mem_mem (n : Nat) (hn : 0 < n) (l : List α)
    (c : List α) (hc : c ∈ chunkList n l) (x : α) (hx : x ∈ c) : x ∈ l := by
  have := chunkList_flatten n hn l
  rw [← this]
  exact List.mem_flatten.mpr ⟨c, hc, hx⟩

/-! ### Sparse writer (`FIO_fwriteSparse` / `FIO_fwriteSparseEnd`, fileio.c)

The destination file is written strictly left to right: plain `fwrite`s and
relative forward `LONG_SEEK`s.  A region skipped over reads back as zero
bytes once a write lands beyond it (the finalizer guarantees a final write
whenever skips are pending).  We therefore model the emitted output as the
byte list that can be read back: a write appends its bytes, a forward seek
of `n` appends `n` zero bytes.  `storedSkips` is a C `unsigned`, hence the
`% 4294967296` (`2^32`) on every accumulation. -/

/-- A machine word (8 bytes on the modelled platform) compares equal to 0
iff all its bytes are zero. -/
def isZeroWord (w : List Nat) : Bool := w.all (fun b => b == 0)

def isZeroByte (b : Nat) : Bool := b == 0

/-- One 32 KB segment of the word loop of `FIO_fwriteSparse`: count leading
all-zero words into `storedSkips`; if the segment is not entirely zero,
seek over the accumulated skips and write the remaining words. -/
def sparseSegStep (acc : List Nat × Nat) (seg : List (List Nat)) : List Nat × Nat :=
  let nb0 := (seg.takeWhile isZeroWord).length
  let sk := (acc.2 + 8 * nb0) % 4294967296
  if nb0 = seg.length then (acc.1, sk)
  else (acc.1 ++ List.replicate sk 0 ++ (seg.dropWhile isZeroWord).flatten, 0)

/-- Trailing-bytes handling of `FIO_fwriteSparse` (buffer size not a
multiple of the word size): count leading zero bytes, then seek and write
any non-zero remainder. -/
def sparseRestStep (acc : List Nat × Nat) (rest : List Nat) : List Nat × Nat :=
  if rest.isEmpty then acc
  else
    let nb0 := (rest.takeWhile isZeroByte).length
    let sk := (acc.2 + nb0) % 4294967296
    if nb0 = rest.length then (acc.1, sk)
    else (acc.1 ++ List.replicate sk 0 ++ rest.dropWhile isZeroByte, 0)

/-- Shallow embedding of `FIO_fwriteSparse` (fileio.c).  Returns the
emitted output (bytes readable back from the region the call covered,
holes as zeros) together with the updated `storedSkips`.
In test mode nothing is written and 0 is returned; with sparse support
disabled the whole buffer is written plainly and 0 is returned.  Otherwise:
the 1 GB guard seek, then the 32 KB-segment word loop, then the trailing
bytes. -/
def FIO_fwriteSparse (prefs : FIO_prefs_t) (buf : List Nat) (storedSkips : Nat) :
    List Nat × Nat :=
  if prefs.testMode then ([], 0)
  else if prefs.sparseFileSupport = 0 then (buf, 0)
  else
    let g : List Nat × Nat :=
      if storedSkips > 1073741824 then
        (List.replicate 1073741824 0, storedSkips - 1073741824)
      else ([], storedSkips)
    let nWords := buf.length / 8
    let words := chunkList 8 (buf.take (8 * nWords))
    let segs := chunkList 4096 words
    let r := segs.foldl sparseSegStep g
    sparseRestStep r (buf.drop (8 * nWords))

/-- Shallow embedding of `FIO_fwriteSparseEnd` (fileio.c): if skips are
pending, seek `storedSkips - 1` and write one explicit zero byte, so the
filesystem records the file's final length. -/
def FIO_fwriteSparseEnd (prefs : FIO_prefs_t) (storedSkips : Nat) : List Nat :=
  if storedSkips > 0 then List.replicate (storedSkips - 1) 0 ++ [0] else []

/-- A whole run of the sparse writer over successive buffers, threading
`storedSkips` as the source does, starting from a fresh file (skips 0). -/
def sparseWriteRun (prefs : FIO_prefs_t) (bufs : List (List Nat)) : List Nat × Nat :=
  bufs.foldl (fun acc b =>
    let r := FIO_fwriteSparse prefs b acc.2
    (acc.1 ++ r.1, r.2)) ([], 0)

/-! ### Round-trip lemmas for the sparse writer -/

theorem eq_replicate_of_all_zero (l : List Nat) (h : ∀ b ∈ l, b = 0) :
    l = List.replicate l.length 0 :=
  List.eq_replicate_iff.mpr ⟨rfl, h⟩

theorem takeWhile_length_le (p : α → Bool) (l : List α) :
    (l.takeWhile p).length ≤ l.length := by
  conv_rhs => rw [← List.takeWhile_append_dropWhile p l]
  simp only [List.length_append]
  omega

theorem mem_of_mem_takeWhile (p : α → Bool) (l : List α) (x : α)
    (hx : x ∈ l.takeWhile p) : x ∈ l := by
  rw [← List.takeWhile_append_dropWhile p l]
  exact List.mem_append_left _ hx

theorem flatten_takeWhile_zeroWords (seg : List (List Nat))
    (h8 : ∀ w ∈ seg, w.length = 8) :
    (seg.takeWhile isZeroWord).flatten
      = List.replicate (8 * (seg.takeWhile isZeroWord).length) 0 := by
  have hz : ∀ b ∈ (seg.takeWhile isZeroWord).flatten, b = 0 := by
    intro b hb
    rcases List.mem_flatten.mp hb with ⟨w, hw, hbw⟩
    have := List.mem_takeWhile_imp hw
    simp only [isZeroWord, List.all_eq_true] at this
    simpa using this b hbw
  have hlen : (seg.takeWhile isZeroWord).flatten.length
      = 8 * (seg.takeWhile isZeroWord).length := by
    rw [List.length_flatten]
    have hmap : (seg.takeWhile isZeroWord).map List.length
        = List.replicate (seg.takeWhile isZeroWord).length 8 := by
      apply List.eq_replicate_iff.mpr
      refine ⟨by simp, ?_⟩
      intro b hb
      rcases List.mem_map.mp hb with ⟨w, hw, hbw⟩
      rw [← hbw]
      exact h8 w (mem_of_mem_takeWhile _ _ _ hw)
    rw [hmap, List.sum_replicate, smul_eq_mul, Nat.mul_comm]
  rw [← hlen]
  exact eq_replicate_of_all_zero _ hz

theorem flatten_takeWhile_zeroBytes (rest : List Nat) :
    rest.takeWhile isZeroByte
      = List.replicate (rest.takeWhile isZeroByte).length 0 := by
  apply eq_replicate_of_all_zero
  intro b hb
  have := List.mem_takeWhile_imp hb
  simpa [isZeroByte] using this

theorem sparseSegStep_spec (out : List Nat) (sk : Nat) (seg : List (List Nat))
    (h8 : ∀ w ∈ seg, w.length = 8)
    (hbound : sk + 8 * seg.length < 4294967296) :
    (sparseSegStep (out, sk) seg).1
        ++ List.replicate (sparseSegStep (out, sk) seg).2 0
      = out ++ List.replicate sk 0 ++ seg.flatten
    ∧ (sparseSegStep (out, sk) seg).2 ≤ sk + 8 * seg.length := by
  have hnb0 : (seg.takeWhile isZeroWord).length ≤ seg.length :=
    takeWhile_length_le _ _
  have hmod : (sk + 8 * (seg.takeWhile isZeroWord).length) % 4294967296
      = sk + 8 * (seg.takeWhile isZeroWord).length := by
    apply Nat.mod_eq_of_lt
    omega
  have hsplit : (seg.takeWhile isZeroWord).flatten ++ (seg.dropWhile isZeroWord).flatten
      = seg.flatten := by
    rw [← List.flatten_append, List.takeWhile_append_dropWhile]
  unfold sparseSegStep
  simp only [hmod]
  by_cases hall : (seg.takeWhile isZeroWord).length = seg.length
  · rw [if_pos hall]
    constructor
    · have hdw : (seg.dropWhile isZeroWord) = [] := by
        have h1 := List.takeWhile_append_dropWhile isZeroWord seg
        have h2 := congrArg List.length h1
        simp only [List.length_append] at h2
        have : (seg.dropWhile isZeroWord).length = 0 := by omega
        exact List.length_eq_zero.mp this
      have htw : seg.takeWhile isZeroWord = seg := by
        have h1 := List.takeWhile_append_dropWhile isZeroWord seg
        rw [hdw, List.append_nil] at h1
        exact h1
      have hflat : seg.flatten
          = List.replicate (8 * (seg.takeWhile isZeroWord).length) 0 := by
        conv_lhs => rw [← htw]
        exact flatten_takeWhile_zeroWords seg h8
      simp only [hflat, List.replicate_add, List.append_assoc]
    · simp only []
      omega
  · rw [if_neg hall]
    constructor
    · simp only [List.replicate_zero, List.append_nil]
      rw [← hsplit, flatten_takeWhile_zeroWords seg h8, List.replicate_add]
      simp only [List.append_assoc]
    · simp only []
      omega

theorem sparseSegs_foldl_spec :
    ∀ (segs : List (List (List Nat))) (out : List Nat) (sk : Nat),
    (∀ seg ∈ segs, ∀ w ∈ seg, w.length = 8) →
    sk + segs.flatten.flatten.length < 4294967296 →
    (segs.foldl sparseSegStep (out, sk)).1
        ++ List.replicate (segs.foldl sparseSegStep (out, sk)).2 0
      = out ++ List.replicate sk 0 ++ segs.flatten.flatten
    ∧ (segs.foldl sparseSegStep (out, sk)).2 ≤ sk + segs.flatten.flatten.length := by
  intro segs
  induction segs with
  | nil =>
    intro out sk _ _
    simp
  | cons seg segs ih =>
    intro out sk h8 hbound
    have h8seg : ∀ w ∈ seg, w.length = 8 := fun w hw => h8 seg (List.mem_cons_self _ _) w hw
    have hsegflat : seg.flatten.length = 8 * seg.length := by
      rw [List.length_flatten]
      have hmap : seg.map List.length = List.replicate seg.length 8 := by
        apply List.eq_replicate_iff.mpr
        refine ⟨by simp, ?_⟩
        intro b hb
        rcases List.mem_map.mp hb with ⟨w, hw, hbw⟩
        rw [← hbw]
        exact h8seg w hw
      rw [hmap, List.sum_replicate, smul_eq_mul, Nat.mul_comm]
    have hlen : ((seg :: segs).flatten.flatten).length
        = seg.flatten.length + segs.flatten.flatten.length := by
      simp [List.flatten_cons, List.flatten_append]
    have hstepBound : sk + 8 * seg.length < 4294967296 := by
      rw [hlen, hsegflat] at hbound
      omega
    obtain ⟨hstep1, hstep2⟩ := sparseSegStep_spec out sk seg h8seg hstepBound
    set r1 := sparseSegStep (out, sk) seg with hr1
    have hr1pair : r1 = (r1.1, r1.2) := rfl
    have h8' : ∀ s ∈ segs, ∀ w ∈ s, w.length = 8 :=
      fun s hs w hw => h8 s (List.mem_cons_of_mem _ hs) w hw
    have hbound' : r1.2 + segs.flatten.flatten.length < 4294967296 := by
      rw [hlen, hsegflat] at hbound
      omega
    obtain ⟨hrec1, hrec2⟩ := ih r1.1 r1.2 h8' hbound'
    have hfold : (seg :: segs).foldl sparseSegStep (out, sk)
        = segs.foldl sparseSegStep (r1.1, r1.2) := by
      rw [List.foldl_cons, ← hr1pair]
    constructor
    · rw [hfold, hrec1, hstep1]
      simp [List.flatten_cons, List.flatten_append, List.append_assoc]
    · rw [hfold]
      rw [hlen, hsegflat]
      omega

theorem sparseRestStep_spec (out : List Nat) (sk : Nat) (rest : List Nat)
    (hbound : sk + rest.length < 4294967296) :
    (sparseRestStep (out, sk) rest).1
        ++ List.replicate (sparseRestStep (out, sk) rest).2 0
      = out ++ List.replicate sk 0 ++ rest
    ∧ (sparseRestStep (out, sk) rest).2 ≤ sk + rest.length := by
  unfold sparseRestStep
  by_cases hemp : rest.isEmpty
  · rw [if_pos hemp]
    have : rest = [] := List.isEmpty_iff.mp hemp
    subst this
    simp
  · rw [if_neg hemp]
    have hnb0 : (rest.takeWhile isZeroByte).length ≤ rest.length :=
      takeWhile_length_le _ _
    have hmod : (sk + (rest.takeWhile isZeroByte).length) % 4294967296
        = sk + (rest.takeWhile isZeroByte).length := by
      apply Nat.mod_eq_of_lt
      omega
    simp only [hmod]
    have hsplit : rest.takeWhile isZeroByte ++ rest.dropWhile isZeroByte = rest :=
      List.takeWhile_append_dropWhile _ _
    by_cases hall : (rest.takeWhile isZeroByte).length = rest.length
    · rw [if_pos hall]
      constructor
      · have hdw : rest.dropWhile isZeroByte = [] := by
          have h2 := congrArg List.length hsplit
          simp only [List.length_append] at h2
          have : (rest.dropWhile isZeroByte).length = 0 := by omega
          exact List.length_eq_zero.mp this
        have htw : rest.takeWhile isZeroByte = rest := by
          rw [hdw, List.append_nil] at hsplit
          exact hsplit
        have hrep2 : List.replicate (rest.takeWhile isZeroByte).length 0 = rest :=
          (flatten_takeWhile_zeroBytes rest).symm.trans htw
        simp only [List.replicate_add, hrep2, List.append_assoc]
      · simp only []
        omega
    · rw [if_neg hall]
      constructor
      · simp only [List.replicate_zero, List.append_nil]
        have hrep := flatten_takeWhile_zeroBytes rest
        set tw := rest.takeWhile isZeroByte with htw2
        set dw := rest.dropWhile isZeroByte with hdw2
        rw [← hsplit, List.replicate_add, ← hrep]
        simp only [List.append_assoc]
      · simp only []
        omega

/-- Word loop followed by trailing bytes (body of `FIO_fwriteSparse` after
the mode checks and the 1 GB guard), starting from already-emitted output
`out` and pending skips `s0`. -/
theorem sparseBody_spec (out : List Nat) (s0 : Nat) (buf : List Nat)
    (hs0 : s0 ≤ 1073741824) (hb : buf.length ≤ 1073741824) :
    (sparseRestStep
        ((chunkList 4096 (chunkList 8 (buf.take (8 * (buf.length / 8))))).foldl
          sparseSegStep (out, s0))
        (buf.drop (8 * (buf.length / 8)))).1
      ++ List.replicate
          (sparseRestStep
            ((chunkList 4096 (chunkList 8 (buf.take (8 * (buf.length / 8))))).foldl
              sparseSegStep (out, s0))
            (buf.drop (8 * (buf.length / 8)))).2 0
      = out ++ List.replicate s0 0 ++ buf
    ∧ (sparseRestStep
        ((chunkList 4096 (chunkList 8 (buf.take (8 * (buf.length / 8))))).foldl
          sparseSegStep (out, s0))
        (buf.drop (8 * (buf.length / 8)))).2 ≤ s0 + buf.length := by
  have hdm : buf.length / 8 * 8 ≤ buf.length := Nat.div_mul_le_self _ _
  have hwplen : (buf.take (8 * (buf.length / 8))).length = 8 * (buf.length / 8) := by
    rw [List.length_take]
    omega
  have hrestlen : (buf.drop (8 * (buf.length / 8))).length
      = buf.length - 8 * (buf.length / 8) := List.length_drop _ _
  have hwr : buf.take (8 * (buf.length / 8)) ++ buf.drop (8 * (buf.length / 8)) = buf :=
    List.take_append_drop _ _
  have hwordsflat : (chunkList 8 (buf.take (8 * (buf.length / 8)))).flatten
      = buf.take (8 * (buf.length / 8)) := chunkList_flatten 8 (by omega) _
  have hword8 : ∀ w ∈ chunkList 8 (buf.take (8 * (buf.length / 8))), w.length = 8 := by
    intro w hw
    apply chunkList_mem_length_dvd 8 (by omega) _ _ w hw
    rw [hwplen]
    exact ⟨buf.length / 8, rfl⟩
  have hsegsflat : (chunkList 4096 (chunkList 8 (buf.take (8 * (buf.length / 8))))).flatten
      = chunkList 8 (buf.take (8 * (buf.length / 8))) := chunkList_flatten 4096 (by omega) _
  have hseg8 : ∀ seg ∈ chunkList 4096 (chunkList 8 (buf.take (8 * (buf.length / 8)))),
      ∀ w ∈ seg, w.length = 8 := by
    intro seg hsm w hw
    exact hword8 w (chunkList_mem_mem 4096 (by omega) _ seg hsm w hw)
  have hsegsflat2 :
      (chunkList 4096 (chunkList 8 (buf.take (8 * (buf.length / 8))))).flatten.flatten
        = buf.take (8 * (buf.length / 8)) := by
    rw [hsegsflat, hwordsflat]
  have hsflen :
      (chunkList 4096 (chunkList 8 (buf.take (8 * (buf.length / 8))))).flatten.flatten.length
        = 8 * (buf.length / 8) := by
    rw [hsegsflat2, hwplen]
  have hbound : s0 +
      (chunkList 4096 (chunkList 8 (buf.take (8 * (buf.length / 8))))).flatten.flatten.length
        < 4294967296 := by
    rw [hsflen]
    omega
  obtain ⟨hfold1, hfold2⟩ := sparseSegs_foldl_spec _ out s0 hseg8 hbound
  rw [hsflen] at hfold2
  set r1 := (chunkList 4096 (chunkList 8 (buf.take (8 * (buf.length / 8))))).foldl
      sparseSegStep (out, s0) with hr1def
  have hr1pair : r1 = (r1.1, r1.2) := rfl
  have hrestBound : r1.2 + (buf.drop (8 * (buf.length / 8))).length < 4294967296 := by
    rw [hrestlen]
    omega
  obtain ⟨hr2a, hr2b⟩ := sparseRestStep_spec r1.1 r1.2 _ hrestBound
  rw [← hr1pair] at hr2a hr2b
  constructor
  · rw [hr2a, hfold1, hsegsflat2, List.append_assoc, List.append_assoc, hwr,
      ← List.append_assoc]
  · rw [hrestlen] at hr2b
    omega

/-- Per-call correctness of the sparse writer outside test mode: the
emitted bytes followed by the still-pending skips spell exactly the pending
skips on entry followed by the buffer; the returned skip count stays at or
below `2^31` (so the `unsigned` arithmetic of the source never wraps for
buffers of at most 1 GB) and is 0 whenever sparse support is off. -/
theorem FIO_fwriteSparse_spec (prefs : FIO_prefs_t) (buf : List Nat) (sk : Nat)
    (hTest : prefs.testMode = false)
    (hOff : prefs.sparseFileSupport = 0 → sk = 0)
    (hb : buf.length ≤ 1073741824) (hs : sk ≤ 2147483648) :
    (FIO_fwriteSparse prefs buf sk).1
        ++ List.replicate (FIO_fwriteSparse prefs buf sk).2 0
      = List.replicate sk 0 ++ buf
    ∧ (FIO_fwriteSparse prefs buf sk).2 ≤ 2147483648
    ∧ (prefs.sparseFileSupport = 0 → (FIO_fwriteSparse prefs buf sk).2 = 0) := by
  unfold FIO_fwriteSparse
  rw [hTest]
  simp only [Bool.false_eq_true, if_false]
  by_cases hsp : prefs.sparseFileSupport = 0
  · rw [if_pos hsp, hOff hsp]
    simp
  · rw [if_neg hsp]
    by_cases hskg : sk > 1073741824
    · rw [if_pos hskg]
      obtain ⟨hbody1, hbody2⟩ :=
        sparseBody_spec (List.replicate 1073741824 0) (sk - 1073741824) buf
          (by omega) hb
      refine ⟨?_, by omega, fun hx => absurd hx hsp⟩
      rw [hbody1, ← List.replicate_add]
      have hsum : 1073741824 + (sk - 1073741824) = sk := by omega
      rw [hsum]
    · rw [if_neg hskg]
      obtain ⟨hbody1, hbody2⟩ := sparseBody_spec [] sk buf (by omega) hb
      refine ⟨?_, by omega, fun hx => absurd hx hsp⟩
      rw [hbody1, List.nil_append]

theorem replicate_pred_append_zero (n : Nat) (hn : 0 < n) :
    List.replicate (n - 1) (0 : Nat) ++ [0] = List.replicate n 0 := by
  have h1 : [(0 : Nat)] = List.replicate 1 0 := rfl
  rw [h1, ← List.replicate_add]
  congr 1
  omega

theorem sparseWriteRun_foldl_spec (prefs : FIO_prefs_t) (hTest : prefs.testMode = false) :
    ∀ (bufs : List (List Nat)) (out : List Nat) (sk : Nat),
    (∀ b ∈ bufs, b.length ≤ 1073741824) →
    sk ≤ 2147483648 → (prefs.sparseFileSupport = 0 → sk = 0) →
    (bufs.foldl (fun acc b =>
        let r := FIO_fwriteSparse prefs b acc.2
        (acc.1 ++ r.1, r.2)) (out, sk)).1
        ++ List.replicate (bufs.foldl (fun acc b =>
            let r := FIO_fwriteSparse prefs b acc.2
            (acc.1 ++ r.1, r.2)) (out, sk)).2 0
      = out ++ List.replicate sk 0 ++ bufs.flatten
    ∧ (bufs.foldl (fun acc b =>
        let r := FIO_fwriteSparse prefs b acc.2
        (acc.1 ++ r.1, r.2)) (out, sk)).2 ≤ 2147483648
    ∧ (prefs.sparseFileSupport = 0 →
        (bufs.foldl (fun acc b =>
          let r := FIO_fwriteSparse prefs b acc.2
          (acc.1 ++ r.1, r.2)) (out, sk)).2 = 0) := by
  intro bufs
  induction bufs with
  | nil =>
    intro out sk _ hsk hoff
    refine ⟨by simp, by simpa using hsk, by simpa using hoff⟩
  | cons b bufs ih =>
    intro out sk hb hsk hoff
    have hb1 : b.length ≤ 1073741824 := hb b (List.mem_cons_self _ _)
    obtain ⟨hw1, hw2, hw3⟩ := FIO_fwriteSparse_spec prefs b sk hTest hoff hb1 hsk
    have hb' : ∀ x ∈ bufs, x.length ≤ 1073741824 :=
      fun x hx => hb x (List.mem_cons_of_mem _ hx)
    obtain ⟨hr1, hr2, hr3⟩ :=
      ih (out ++ (FIO_fwriteSparse prefs b sk).1) (FIO_fwriteSparse prefs b sk).2 hb' hw2 hw3
    have hfold : (b :: bufs).foldl (fun acc x =>
        let r := FIO_fwriteSparse prefs x acc.2
        (acc.1 ++ r.1, r.2)) (out, sk)
      = bufs.foldl (fun acc x =>
        let r := FIO_fwriteSparse prefs x acc.2
        (acc.1 ++ r.1, r.2))
          (out ++ (FIO_fwriteSparse prefs b sk).1, (FIO_fwriteSparse prefs b sk).2) := rfl
    refine ⟨?_, ?_, ?_⟩
    · rw [hfold, hr1, List.append_assoc out, hw1]
      simp [List.flatten_cons, List.append_assoc]
    · rw [hfold]
      exact hr2
    · rw [hfold]
      exact hr3

/-- C1: writing any sequence of buffers (each at most 1 GB, the size class
of every call site) through the sparse writer with test mode off — sparse
support enabled or not — and finishing with the sparse finalizer yields a
file whose readable bytes are exactly the concatenation of the buffers,
trailing zero region included. -/
theorem claim_C1_sparse_roundTrip (prefs : FIO_prefs_t) (bufs : List (List Nat))
    (hTest : prefs.testMode = false)
    (hb : ∀ b ∈ bufs, b.length ≤ 1073741824) :
    (sparseWriteRun prefs bufs).1
        ++ FIO_fwriteSparseEnd prefs (sparseWriteRun prefs bufs).2
      = bufs.flatten := by
  obtain ⟨hr1, hr2, hr3⟩ :=
    sparseWriteRun_foldl_spec prefs hTest bufs [] 0 hb (by omega) (fun _ => rfl)
  unfold sparseWriteRun
  unfold FIO_fwriteSparseEnd
  by_cases hz : (List.foldl (fun acc b =>
      let r := FIO_fwriteSparse prefs b acc.2
      (acc.1 ++ r.1, r.2)) ([], 0) bufs).2 > 0
  · rw [if_pos hz, replicate_pred_append_zero _ hz]
    simpa using hr1
  · rw [if_neg hz]
    have h0 : (List.foldl (fun acc b =>
        let r := FIO_fwriteSparse prefs b acc.2
        (acc.1 ++ r.1, r.2)) ([], 0) bufs).2 = 0 := by omega
    rw [h0] at hr1
    simpa using hr1

/-- Witness for C1 at a concrete run: buffers `[1,0,0]` and `[0,5]` with
sparse support on. -/
theorem claim_C1_sparse_roundTrip_witness :
    (⟨false, 1, false, false, 0, false, 0, 0, 0, 0⟩ : FIO_prefs_t).testMode = false
    ∧ (∀ b ∈ [[1,0,0],[0,5]], List.length b ≤ 1073741824)
    ∧ (sparseWriteRun ⟨false, 1, false, false, 0, false, 0, 0, 0, 0⟩ [[1,0,0],[0,5]]).1
        ++ FIO_fwriteSparseEnd ⟨false, 1, false, false, 0, false, 0, 0, 0, 0⟩
            (sparseWriteRun ⟨false, 1, false, false, 0, false, 0, 0, 0, 0⟩ [[1,0,0],[0,5]]).2
      = [[1,0,0],[0,5]].flatten :=
  ⟨rfl, by decide,
    claim_C1_sparse_roundTrip ⟨false, 1, false, false, 0, false, 0, 0, 0, 0⟩
      [[1,0,0],[0,5]] rfl (by decide)⟩

/-- Counterexample to C3: with test mode set, `FIO_fwriteSparse` does not
perform a plain write of the buffer — it writes nothing at all (source:
"do not output anything in test mode") — so on buffer `[1,2,3]` the output
is empty rather than the buffer. -/
theorem claim_C3_counterexample :
    FIO_fwriteSparse ⟨true, 1, false, false, 0, false, 0, 0, 0, 0⟩ [1, 2, 3] 0
      = ([], 0)
    ∧ ([] : List Nat) ≠ [1, 2, 3] := by
  constructor
  · rfl
  · decide

/-- C3 (amended): a call to the sparse writer in test mode writes nothing
and returns a pending-skip value of 0; with test mode clear and sparse
support disabled it performs a plain write of the entire buffer and
returns 0. -/
theorem claim_C3_plainWrite (prefs : FIO_prefs_t) (buf : List Nat) (sk : Nat) :
    (prefs.testMode = true → FIO_fwriteSparse prefs buf sk = ([], 0))
    ∧ (prefs.testMode = false → prefs.sparseFileSupport = 0 →
        FIO_fwriteSparse prefs buf sk = (buf, 0)) := by
  constructor
  · intro h
    unfold FIO_fwriteSparse
    rw [h]
    simp
  · intro h1 h2
    unfold FIO_fwriteSparse
    rw [h1, h2]
    simp

/-- Witness for C3 (amended) at concrete inputs: test mode on, and
test mode off with sparse disabled. -/
theorem claim_C3_plainWrite_witness :
    FIO_fwriteSparse ⟨true, 1, false, false, 0, false, 0, 0, 0, 0⟩ [7, 8] 5 = ([], 0)
    ∧ FIO_fwriteSparse ⟨false, 0, false, false, 0, false, 0, 0, 0, 0⟩ [7, 8] 0 = ([7, 8], 0) :=
  ⟨(claim_C3_plainWrite ⟨true, 1, false, false, 0, false, 0, 0, 0, 0⟩ [7, 8] 5).1 rfl,
   (claim_C3_plainWrite ⟨false, 0, false, false, 0, false, 0, 0, 0, 0⟩ [7, 8] 0).2 rfl rfl⟩

/-! ### Pass-through copy (`FIO_passThrough`, fileio.c)

After flushing the already-loaded prefix with a plain write, the source
reads blocks of `MIN(64 KB, bufferSize)` bytes and forwards them through
the sparse writer until a short read, then calls the sparse finalizer. -/

/-- The read/forward loop of `FIO_passThrough` (do-while on
`readFromInput == blockSize`), with structural fuel bounding the number of
iterations; `input.length` is always enough fuel for a positive block
size. -/
def passThroughGo (prefs : FIO_prefs_t) (blockSize : Nat) :
    Nat → List Nat → Nat → List Nat × Nat
  | 0, input, sk => FIO_fwriteSparse prefs (input.take blockSize) sk
  | fuel+1, input, sk =>
    let chunk := input.take blockSize
    let w := FIO_fwriteSparse prefs chunk sk
    if chunk.length = blockSize ∧ 0 < blockSize then
      let r := passThroughGo prefs blockSize fuel (input.drop blockSize) w.2
      (w.1 ++ r.1, r.2)
    else w

/-- Shallow embedding of `FIO_passThrough` (fileio.c): emitted output of a
pass-through run over the already-loaded prefix and the remaining input. -/
def FIO_passThrough (prefs : FIO_prefs_t) (bufferSize : Nat)
    (alreadyLoaded input : List Nat) : List Nat :=
  let blockSize := min 65536 bufferSize
  let r := passThroughGo prefs blockSize input.length input 0
  alreadyLoaded ++ r.1 ++ FIO_fwriteSparseEnd prefs r.2

theorem passThroughGo_spec (prefs : FIO_prefs_t) (blockSize : Nat)
    (hTest : prefs.testMode = false) (hbs : 0 < blockSize)
    (hbs2 : blockSize ≤ 1073741824) :
    ∀ (fuel : Nat) (input : List Nat) (sk : Nat), input.length ≤ fuel →
    (prefs.sparseFileSupport = 0 → sk = 0) → sk ≤ 2147483648 →
    (passThroughGo prefs blockSize fuel input sk).1
        ++ List.replicate (passThroughGo prefs blockSize fuel input sk).2 0
      = List.replicate sk 0 ++ input
    ∧ (passThroughGo prefs blockSize fuel input sk).2 ≤ 2147483648
    ∧ (prefs.sparseFileSupport = 0 →
        (passThroughGo prefs blockSize fuel input sk).2 = 0) := by
  intro fuel
  induction fuel with
  | zero =>
    intro input sk hfuel hoff hsk
    have hnil : input = [] := List.length_eq_zero.mp (Nat.le_zero.mp hfuel)
    subst hnil
    simp only [passThroughGo, List.take_nil]
    obtain ⟨h1, h2, h3⟩ := FIO_fwriteSparse_spec prefs [] sk hTest hoff (by simp) hsk
    exact ⟨by simpa using h1, h2, h3⟩
  | succ fuel ih =>
    intro input sk hfuel hoff hsk
    have hchunklen : (input.take blockSize).length ≤ 1073741824 := by
      rw [List.length_take]
      omega
    obtain ⟨hw1, hw2, hw3⟩ :=
      FIO_fwriteSparse_spec prefs (input.take blockSize) sk hTest hoff hchunklen hsk
    simp only [passThroughGo]
    by_cases hcond : (input.take blockSize).length = blockSize ∧ 0 < blockSize
    · rw [if_pos hcond]
      have hdroplen : (input.drop blockSize).length ≤ fuel := by
        rw [List.length_drop]
        rcases hcond with ⟨hc1, hc2⟩
        rw [List.length_take] at hc1
        omega
      obtain ⟨hr1, hr2, hr3⟩ :=
        ih (input.drop blockSize) (FIO_fwriteSparse prefs (input.take blockSize) sk).2
          hdroplen hw3 hw2
      refine ⟨?_, hr2, hr3⟩
      simp only [List.append_assoc]
      rw [hr1, ← List.append_assoc, hw1, List.append_assoc, List.take_append_drop]
    · rw [if_neg hcond]
      have htake : input.take blockSize = input := by
        apply List.take_of_length_le
        by_contra hgt
        push_neg at hgt
        apply hcond
        constructor
        · rw [List.length_take]
          omega
        · exact hbs
      rw [htake] at hw1 hw2 hw3 ⊢
      exact ⟨hw1, hw2, hw3⟩

/-- `FIO_passThrough` copies its input verbatim: already-loaded prefix
followed by the remaining bytes of the source. -/
theorem FIO_passThrough_spec (prefs : FIO_prefs_t) (bufferSize : Nat)
    (alreadyLoaded input : List Nat)
    (hTest : prefs.testMode = false) (hbs : 0 < bufferSize) :
    FIO_passThrough prefs bufferSize alreadyLoaded input = alreadyLoaded ++ input := by
  have hbs1 : 0 < min 65536 bufferSize := by
    apply Nat.lt_min.mpr
    exact ⟨by omega, hbs⟩
  have hbs2 : min 65536 bufferSize ≤ 1073741824 := by
    have := Nat.min_le_left 65536 bufferSize
    omega
  obtain ⟨h1, h2, h3⟩ :=
    passThroughGo_spec prefs (min 65536 bufferSize) hTest hbs1 hbs2
      input.length input 0 (Nat.le_refl _) (fun _ => rfl) (by omega)
  show alreadyLoaded
      ++ (passThroughGo prefs (min 65536 bufferSize) input.length input 0).1
      ++ FIO_fwriteSparseEnd prefs
          (passThroughGo prefs (min 65536 bufferSize) input.length input 0).2
    = alreadyLoaded ++ input
  unfold FIO_fwriteSparseEnd
  by_cases hz : (passThroughGo prefs (min 65536 bufferSize) input.length input 0).2 > 0
  · rw [if_pos hz, replicate_pred_append_zero _ hz, List.append_assoc, h1]
    simp
  · rw [if_neg hz]
    have h0 : (passThroughGo prefs (min 65536 bufferSize) input.length input 0).2 = 0 := by
      omega
    rw [h0] at h1
    simp only [List.replicate_zero, List.append_nil] at h1
    rw [List.append_assoc, h1]
    simp

/-! ### Multi-frame decompression dispatch (`FIO_decompressFrames`, fileio.c)

One iteration of the per-frame loop: top up the held-over bytes to 4, then
check for end of input / short header, then dispatch on the magic-number
prefix.  The zstd magic test is the library call `ZSTD_isFrame`, taken here
as an oracle parameter.  The build is modelled with all optional
decompressors compiled in (gzip, lzma/xz, lz4). -/

inductive FrameAction where
  | endOfFile
  | errUnexpectedEOF
  | errUnknownHeader
  | zstdFrame
  | gzFrame
  | xzLzmaFrame
  | lz4Frame
  | passThroughMode
  | errUnsupportedFormat
  deriving Repr, DecidableEq

/-- Little-endian 32-bit read (`MEM_readLE32`) of the first four bytes. -/
def MEM_readLE32 (buf : List Nat) : Nat :=
  buf.getD 0 0 + 256 * buf.getD 1 0 + 65536 * buf.getD 2 0 + 16777216 * buf.getD 3 0

def LZ4_MAGICNUMBER : Nat := 0x184D2204

/-- One dispatch step of `FIO_decompressFrames` (fileio.c): `loaded` are
the held-over bytes, `avail` the bytes still readable from the file,
`readSomething` records whether any frame was consumed before. -/
def FIO_decompressFrames_step (isZstdFrame : List Nat → Bool)
    (prefs : FIO_prefs_t) (dstIsStdout : Bool)
    (loaded avail : List Nat) (readSomething : Bool) : FrameAction :=
  let loaded2 := loaded ++ avail.take (4 - loaded.length)
  if loaded2.length = 0 then
    (if readSomething then .endOfFile else .errUnexpectedEOF)
  else if loaded2.length < 4 then .errUnknownHeader
  else if isZstdFrame loaded2 then .zstdFrame
  else if loaded2.getD 0 0 = 31 ∧ loaded2.getD 1 0 = 139 then .gzFrame
  else if (loaded2.getD 0 0 = 253 ∧ loaded2.getD 1 0 = 55)
      ∨ (loaded2.getD 0 0 = 93 ∧ loaded2.getD 1 0 = 0) then .xzLzmaFrame
  else if MEM_readLE32 loaded2 = LZ4_MAGICNUMBER then .lz4Frame
  else if prefs.overwrite = true ∧ dstIsStdout = true then .passThroughMode
  else .errUnsupportedFormat

/-- C6: when the loaded 4-byte prefix matches none of the known magic
numbers, the dispatcher selects pass-through exactly when overwrite mode is
set and the destination is stdout, and otherwise fails with the
unsupported-format error; pass-through itself copies the held-over prefix
and the remaining input verbatim. -/
theorem claim_C6_passThrough_dispatch (isZstdFrame : List Nat → Bool)
    (prefs : FIO_prefs_t) (dstIsStdout readSomething : Bool)
    (buf : List Nat) (hlen : buf.length = 4)
    (hz : isZstdFrame buf = false)
    (hgz : ¬(buf.getD 0 0 = 31 ∧ buf.getD 1 0 = 139))
    (hxz : ¬(buf.getD 0 0 = 253 ∧ buf.getD 1 0 = 55))
    (hlzma : ¬(buf.getD 0 0 = 93 ∧ buf.getD 1 0 = 0))
    (hlz4 : MEM_readLE32 buf ≠ LZ4_MAGICNUMBER)
    (bufferSize : Nat) (input : List Nat)
    (hTest : prefs.testMode = false) (hbs : 0 < bufferSize) :
    (FIO_decompressFrames_step isZstdFrame prefs dstIsStdout buf [] readSomething
        = .passThroughMode
      ↔ (prefs.overwrite = true ∧ dstIsStdout = true))
    ∧ (¬(prefs.overwrite = true ∧ dstIsStdout = true) →
        FIO_decompressFrames_step isZstdFrame prefs dstIsStdout buf [] readSomething
          = .errUnsupportedFormat)
    ∧ FIO_passThrough prefs bufferSize buf input = buf ++ input := by
  have hl2 : buf ++ List.take (4 - buf.length) [] = buf := by
    simp
  have hstep : FIO_decompressFrames_step isZstdFrame prefs dstIsStdout buf [] readSomething
      = if prefs.overwrite = true ∧ dstIsStdout = true then .passThroughMode
        else .errUnsupportedFormat := by
    unfold FIO_decompressFrames_step
    rw [hl2]
    rw [if_neg (by rw [hlen]; omega), if_neg (by rw [hlen]; omega),
      if_neg (by rw [hz]; simp), if_neg hgz, if_neg (by tauto), if_neg hlz4]
  refine ⟨?_, ?_, FIO_passThrough_spec prefs bufferSize buf input hTest hbs⟩
  · rw [hstep]
    constructor
    · intro h
      by_contra hc
      rw [if_neg hc] at h
      exact absurd h (by decide)
    · intro h
      rw [if_pos h]
  · intro h
    rw [hstep, if_neg h]

/-- Witness for C6: a prefix of four `0xAA` bytes matches no magic;
with overwrite and stdout the dispatcher picks pass-through and the copy
is verbatim. -/
theorem claim_C6_passThrough_dispatch_witness :
    (FIO_decompressFrames_step (fun _ => false)
        ⟨false, 1, true, false, 0, false, 0, 0, 0, 0⟩ true [170, 170, 170, 170] [] true
        = .passThroughMode
      ↔ ((⟨false, 1, true, false, 0, false, 0, 0, 0, 0⟩ : FIO_prefs_t).overwrite = true
          ∧ true = true))
    ∧ (¬((⟨false, 1, true, false, 0, false, 0, 0, 0, 0⟩ : FIO_prefs_t).overwrite = true
          ∧ true = true) →
        FIO_decompressFrames_step (fun _ => false)
          ⟨false, 1, true, false, 0, false, 0, 0, 0, 0⟩ true [170, 170, 170, 170] [] true
          = .errUnsupportedFormat)
    ∧ FIO_passThrough ⟨false, 1, true, false, 0, false, 0, 0, 0, 0⟩ 131072
        [170, 170, 170, 170] [9, 9] = [170, 170, 170, 170] ++ [9, 9] :=
  claim_C6_passThrough_dispatch (fun _ => false)
    ⟨false, 1, true, false, 0, false, 0, 0, 0, 0⟩ true true
    [170, 170, 170, 170] rfl rfl (by decide) (by decide) (by decide) (by decide)
    131072 [9, 9] rfl (by decide)

/-- C10: a non-empty input shorter than 4 bytes fails at the first dispatch
step with the unknown-header error, regardless of its contents. -/
theorem claim_C10_shortInput (isZstdFrame : List Nat → Bool)
    (prefs : FIO_prefs_t) (dstIsStdout : Bool) (input : List Nat)
    (h1 : 1 ≤ input.length) (h4 : input.length < 4) :
    FIO_decompressFrames_step isZstdFrame prefs dstIsStdout [] input false
      = .errUnknownHeader := by
  have htake : List.take (4 - List.length ([] : List Nat)) input = input := by
    apply List.take_of_length_le
    simp
    omega
  unfold FIO_decompressFrames_step
  simp only [List.nil_append]
  rw [htake, if_neg (by omega), if_pos (by omega)]

/-- Witness for C10 at the two-byte gzip magic prefix `1F 8B`: a valid
prefix of a recognized format still yields the unknown-header error. -/
theorem claim_C10_shortInput_witness :
    FIO_decompressFrames_step (fun _ => false)
        ⟨false, 1, true, false, 0, false, 0, 0, 0, 0⟩ true [] [31, 139] false
      = .errUnknownHeader :=
  claim_C10_shortInput (fun _ => false)
    ⟨false, 1, true, false, 0, false, 0, 0, 0, 0⟩ true [31, 139]
    (by decide) (by decide)

/-! ### Adaptive compression-level control (`FIO_compressZstdFrame`, fileio.c)

The statistics block guarded by `prefs->adaptiveMode` (one execution per
`READY_FOR_UPDATE` tick).  Persistent state across ticks: the two frame
progression snapshots, the pending `speedChange`, the `flushWaiting`,
`inputPresented` and `inputBlocked` counters, `lastJobID`, and the current
compression level.  The six progression counters come from the codec and
are monotone (the source asserts `zfp.produced >= previous.produced`), so
the C unsigned subtractions are natural subtractions here.
`ZSTD_maxCLevel()` is a codec-library constant and enters as a
parameter. -/

structure ZSTD_frameProgression where
  ingested : Nat
  consumed : Nat
  produced : Nat
  flushed : Nat
  currentJobID : Nat
  nbActiveWorkers : Nat
  deriving Repr, DecidableEq

inductive SpeedChange where
  | noChange
  | slower
  | faster
  deriving Repr, DecidableEq

structure AdaptState where
  prevUpdate : ZSTD_frameProgression
  prevCorrection : ZSTD_frameProgression
  speedChange : SpeedChange
  flushWaiting : Bool
  inputPresented : Nat
  inputBlocked : Nat
  lastJobID : Nat
  compressionLevel : Int
  deriving Repr, DecidableEq

/-- Output-speed check (fileio.c lines guarded by `zfp.currentJobID > 1`):
flag `slower` when compression is stalled with no active worker, or when
production outruns flushing at full flush capacity; snapshot
`previous_zfp_update` and clear `flushWaiting`. -/
def checkOutputSpeed (zfp : ZSTD_frameProgression) (st : AdaptState) : AdaptState :=
  if zfp.currentJobID > 1 then
    let newlyProduced := zfp.produced - st.prevUpdate.produced
    let newlyFlushed := zfp.flushed - st.prevUpdate.flushed
    let sc1 := if zfp.consumed = st.prevUpdate.consumed ∧ zfp.nbActiveWorkers = 0
               then SpeedChange.slower else st.speedChange
    let sc2 := if newlyProduced > newlyFlushed * 9 / 8 ∧ st.flushWaiting = false
               then SpeedChange.slower else sc1
    { st with speedChange := sc2, prevUpdate := zfp, flushWaiting := false }
  else st

/-- Input-speed check (warm-up gated): with the warm-up period over,
`inputBlocked == 0` flags `slower`; otherwise, if no change is pending and
the pipeline is balanced (input blocked often, flushing keeps up with
production x33/32, ingestion keeps up with consumption x33/32), flag
`faster` and snapshot `previous_zfp_correction`.  The per-tick counters
are reset in every warm-up-passed path. -/
def checkInputSpeed (nbWorkers : Nat) (zfp : ZSTD_frameProgression)
    (st : AdaptState) : AdaptState :=
  if zfp.currentJobID > nbWorkers + 1 then
    if st.inputBlocked = 0 then
      { st with speedChange := SpeedChange.slower, inputBlocked := 0, inputPresented := 0 }
    else if st.speedChange = SpeedChange.noChange then
      let newlyIngested := zfp.ingested - st.prevCorrection.ingested
      let newlyConsumed := zfp.consumed - st.prevCorrection.consumed
      let newlyProduced := zfp.produced - st.prevCorrection.produced
      let newlyFlushed := zfp.flushed - st.prevCorrection.flushed
      let sc := if st.inputBlocked > st.inputPresented / 8
                  ∧ newlyFlushed * 33 / 32 > newlyProduced
                  ∧ newlyIngested * 33 / 32 > newlyConsumed
                then SpeedChange.faster else st.speedChange
      { st with speedChange := sc, prevCorrection := zfp,
                inputBlocked := 0, inputPresented := 0 }
    else { st with inputBlocked := 0, inputPresented := 0 }
  else st

/-- Level update on a correction: increment with clamps to
`ZSTD_maxCLevel()` and `maxAdaptLevel` then skip 0 upward, or decrement
with clamp to `minAdaptLevel` then skip 0 downward. -/
def applySpeedChange (minAdaptLevel maxAdaptLevel maxCLevel : Int)
    (sc : SpeedChange) (level : Int) : Int :=
  match sc with
  | SpeedChange.slower =>
    let l1 := level + 1
    let l2 := if l1 > maxCLevel then maxCLevel else l1
    let l3 := if l2 > maxAdaptLevel then maxAdaptLevel else l2
    l3 + (if l3 = 0 then 1 else 0)
  | SpeedChange.faster =>
    let l1 := level - 1
    let l2 := if l1 < minAdaptLevel then minAdaptLevel else l1
    l2 - (if l2 = 0 then 1 else 0)
  | SpeedChange.noChange => level

/-- One execution of the adaptive-mode block of `FIO_compressZstdFrame`:
output-speed check, then — only when a fresh job has completed — the
input-speed check, the level correction, the `speedChange`/`lastJobID`
reset.  Returns the new state, and the speed change applied by the
correction block (`none` when no fresh job had completed). -/
def adaptiveTick (nbWorkers : Nat) (minAdaptLevel maxAdaptLevel maxCLevel : Int)
    (zfp : ZSTD_frameProgression) (st : AdaptState) :
    AdaptState × Option SpeedChange :=
  let st1 := checkOutputSpeed zfp st
  if zfp.currentJobID > st.lastJobID then
    let st2 := checkInputSpeed nbWorkers zfp st1
    ({ st2 with
        speedChange := SpeedChange.noChange,
        lastJobID := zfp.currentJobID,
        compressionLevel :=
          applySpeedChange minAdaptLevel maxAdaptLevel maxCLevel
            st2.speedChange st2.compressionLevel },
      some st2.speedChange)
  else (st1, none)

theorem checkOutputSpeed_keeps (zfp : ZSTD_frameProgression) (st : AdaptState) :
    (checkOutputSpeed zfp st).inputBlocked = st.inputBlocked
    ∧ (checkOutputSpeed zfp st).inputPresented = st.inputPresented
    ∧ (checkOutputSpeed zfp st).prevCorrection = st.prevCorrection
    ∧ (checkOutputSpeed zfp st).lastJobID = st.lastJobID
    ∧ (checkOutputSpeed zfp st).compressionLevel = st.compressionLevel := by
  unfold checkOutputSpeed
  split_ifs <;> exact ⟨rfl, rfl, rfl, rfl, rfl⟩

theorem checkOutputSpeed_sc (zfp : ZSTD_frameProgression) (st : AdaptState)
    (h : (checkOutputSpeed zfp st).speedChange = SpeedChange.faster) :
    st.speedChange = SpeedChange.faster := by
  unfold checkOutputSpeed at h
  by_cases h1 : zfp.currentJobID > 1
  · rw [if_pos h1] at h
    simp only [] at h
    by_cases hB : (zfp.produced - st.prevUpdate.produced)
        > (zfp.flushed - st.prevUpdate.flushed) * 9 / 8 ∧ st.flushWaiting = false
    · rw [if_pos hB] at h
      exact absurd h (by decide)
    · rw [if_neg hB] at h
      by_cases hA : zfp.consumed = st.prevUpdate.consumed ∧ zfp.nbActiveWorkers = 0
      · rw [if_pos hA] at h
        exact absurd h (by decide)
      · rw [if_neg hA] at h
        exact h
  · rw [if_neg h1] at h
    exact h

theorem checkInputSpeed_level (nbWorkers : Nat) (zfp : ZSTD_frameProgression)
    (st : AdaptState) :
    (checkInputSpeed nbWorkers zfp st).compressionLevel = st.compressionLevel := by
  unfold checkInputSpeed
  split_ifs <;> rfl

/-- C2: a faster correction (level decrement) is applied only when a fresh
job has completed, the warm-up period is over
(`currentJobID > nbWorkers + 1`), and — as the claim permits — either the
`inputBlocked` counter is zero or the balanced-pipeline conditions hold
(in the code it is always the latter).  The hypothesis on the incoming
`speedChange` is an invariant of the loop: `faster` never survives a
correction block, which resets it to `noChange`. -/
theorem claim_C2_faster_only_if (nbWorkers : Nat) (minA maxA maxC : Int)
    (zfp : ZSTD_frameProgression) (st : AdaptState)
    (hsc : st.speedChange ≠ SpeedChange.faster)
    (happ : (adaptiveTick nbWorkers minA maxA maxC zfp st).2
        = some SpeedChange.faster) :
    zfp.currentJobID > st.lastJobID
    ∧ zfp.currentJobID > nbWorkers + 1
    ∧ (st.inputBlocked = 0
       ∨ (st.inputBlocked > st.inputPresented / 8
          ∧ (zfp.flushed - st.prevCorrection.flushed) * 33 / 32
              > zfp.produced - st.prevCorrection.produced
          ∧ (zfp.ingested - st.prevCorrection.ingested) * 33 / 32
              > zfp.consumed - st.prevCorrection.consumed)) := by
  unfold adaptiveTick at happ
  by_cases hjob : zfp.currentJobID > st.lastJobID
  case neg =>
    rw [if_neg hjob] at happ
    exact absurd happ (by simp)
  rw [if_pos hjob] at happ
  simp only [Option.some.injEq] at happ
  set st1 := checkOutputSpeed zfp st with hst1
  obtain ⟨hk1, hk2, hk3, hk4, hk5⟩ := checkOutputSpeed_keeps zfp st
  have hst1sc : st1.speedChange ≠ SpeedChange.faster :=
    fun hf => hsc (checkOutputSpeed_sc zfp st hf)
  unfold checkInputSpeed at happ
  by_cases hw : zfp.currentJobID > nbWorkers + 1
  case neg =>
    rw [if_neg hw] at happ
    exact absurd happ hst1sc
  rw [if_pos hw] at happ
  refine ⟨hjob, hw, ?_⟩
  by_cases hib : st1.inputBlocked = 0
  · rw [if_pos hib] at happ
    simp at happ
  · rw [if_neg hib] at happ
    by_cases hnc : st1.speedChange = SpeedChange.noChange
    · rw [if_pos hnc] at happ
      simp only [] at happ
      by_cases hcond : st1.inputBlocked > st1.inputPresented / 8
          ∧ (zfp.flushed - st1.prevCorrection.flushed) * 33 / 32
              > zfp.produced - st1.prevCorrection.produced
          ∧ (zfp.ingested - st1.prevCorrection.ingested) * 33 / 32
              > zfp.consumed - st1.prevCorrection.consumed
      · right
        rw [hk1, hk2, hk3] at hcond
        exact hcond
      · rw [if_neg hcond] at happ
        rw [hnc] at happ
        exact absurd happ (by decide)
    · rw [if_neg hnc] at happ
      simp only [] at happ
      exact absurd happ hst1sc

/-- Witness for C2: a concrete post-warm-up state with a balanced pipeline
on which the tick applies the faster correction. -/
theorem claim_C2_faster_only_if_witness :
    (⟨⟨0, 5, 10, 0, 0, 0⟩, ⟨0, 0, 0, 0, 0, 0⟩, SpeedChange.noChange,
        false, 8, 5, 0, 5⟩ : AdaptState).speedChange ≠ SpeedChange.faster
    ∧ (adaptiveTick 1 (-5) 22 22 ⟨32, 10, 10, 32, 3, 1⟩
        ⟨⟨0, 5, 10, 0, 0, 0⟩, ⟨0, 0, 0, 0, 0, 0⟩, SpeedChange.noChange,
          false, 8, 5, 0, 5⟩).2 = some SpeedChange.faster
    ∧ ((⟨32, 10, 10, 32, 3, 1⟩ : ZSTD_frameProgression).currentJobID
        > (⟨⟨0, 5, 10, 0, 0, 0⟩, ⟨0, 0, 0, 0, 0, 0⟩, SpeedChange.noChange,
            false, 8, 5, 0, 5⟩ : AdaptState).lastJobID
      ∧ (⟨32, 10, 10, 32, 3, 1⟩ : ZSTD_frameProgression).currentJobID > 1 + 1
      ∧ ((⟨⟨0, 5, 10, 0, 0, 0⟩, ⟨0, 0, 0, 0, 0, 0⟩, SpeedChange.noChange,
            false, 8, 5, 0, 5⟩ : AdaptState).inputBlocked = 0
         ∨ ((⟨⟨0, 5, 10, 0, 0, 0⟩, ⟨0, 0, 0, 0, 0, 0⟩, SpeedChange.noChange,
              false, 8, 5, 0, 5⟩ : AdaptState).inputBlocked
                > (⟨⟨0, 5, 10, 0, 0, 0⟩, ⟨0, 0, 0, 0, 0, 0⟩, SpeedChange.noChange,
                    false, 8, 5, 0, 5⟩ : AdaptState).inputPresented / 8
            ∧ ((⟨32, 10, 10, 32, 3, 1⟩ : ZSTD_frameProgression).flushed
                - (⟨0, 0, 0, 0, 0, 0⟩ : ZSTD_frameProgression).flushed) * 33 / 32
                > (⟨32, 10, 10, 32, 3, 1⟩ : ZSTD_frameProgression).produced
                  - (⟨0, 0, 0, 0, 0, 0⟩ : ZSTD_frameProgression).produced
            ∧ ((⟨32, 10, 10, 32, 3, 1⟩ : ZSTD_frameProgression).ingested
                - (⟨0, 0, 0, 0, 0, 0⟩ : ZSTD_frameProgression).ingested) * 33 / 32
                > (⟨32, 10, 10, 32, 3, 1⟩ : ZSTD_frameProgression).consumed
                  - (⟨0, 0, 0, 0, 0, 0⟩ : ZSTD_frameProgression).consumed))) :=
  ⟨by decide, by decide,
    claim_C2_faster_only_if 1 (-5) 22 22 ⟨32, 10, 10, 32, 3, 1⟩
      ⟨⟨0, 5, 10, 0, 0, 0⟩, ⟨0, 0, 0, 0, 0, 0⟩, SpeedChange.noChange,
        false, 8, 5, 0, 5⟩ (by decide) (by decide)⟩

theorem applySpeedChange_slower_spec (minCLevel minA maxA maxC level : Int)
    (hmc1 : minCLevel < 0) (hmc2 : 0 < maxC) (hma : minCLevel ≤ minA)
    (hB : maxA ≠ 0)
    (hl1 : minA ≤ level) (hl2 : level ≤ maxA) (hl4 : level ≤ maxC)
    (hl0 : level ≠ 0) :
    applySpeedChange minA maxA maxC SpeedChange.slower level ≠ 0
    ∧ minA ≤ applySpeedChange minA maxA maxC SpeedChange.slower level
    ∧ applySpeedChange minA maxA maxC SpeedChange.slower level ≤ maxA
    ∧ minCLevel ≤ applySpeedChange minA maxA maxC SpeedChange.slower level
    ∧ applySpeedChange minA maxA maxC SpeedChange.slower level ≤ maxC
    ∧ level ≤ applySpeedChange minA maxA maxC SpeedChange.slower level
    ∧ applySpeedChange minA maxA maxC SpeedChange.slower level ≤ level + 2
    ∧ (applySpeedChange minA maxA maxC SpeedChange.slower level = level + 2 →
        level + 1 = 0) := by
  simp only [applySpeedChange]
  split_ifs <;> omega

theorem applySpeedChange_faster_spec (minCLevel minA maxA maxC level : Int)
    (hmc1 : minCLevel < 0) (hmc2 : 0 < maxC) (hma : minCLevel ≤ minA)
    (hA : minA ≠ 0)
    (hl1 : minA ≤ level) (hl2 : level ≤ maxA) (hl4 : level ≤ maxC)
    (hl0 : level ≠ 0) :
    applySpeedChange minA maxA maxC SpeedChange.faster level ≠ 0
    ∧ minA ≤ applySpeedChange minA maxA maxC SpeedChange.faster level
    ∧ applySpeedChange minA maxA maxC SpeedChange.faster level ≤ maxA
    ∧ minCLevel ≤ applySpeedChange minA maxA maxC SpeedChange.faster level
    ∧ applySpeedChange minA maxA maxC SpeedChange.faster level ≤ maxC
    ∧ applySpeedChange minA maxA maxC SpeedChange.faster level ≤ level
    ∧ level - 2 ≤ applySpeedChange minA maxA maxC SpeedChange.faster level
    ∧ (applySpeedChange minA maxA maxC SpeedChange.faster level = level - 2 →
        level - 1 = 0) := by
  simp only [applySpeedChange]
  split_ifs <;> omega

/-- Counterexample to C9: with `maxAdaptLevel = 0` (allowed by
`FIO_setAdaptMax`) and current level `-1` inside
`[minAdaptLevel, maxAdaptLevel] = [-5, 0]`, a slower correction pushes
level `1`, which lies outside `[minAdaptLevel, maxAdaptLevel]` and differs
from the old level by 2: the skip-0 adjustment steps past the clamp. -/
theorem claim_C9_counterexample :
    (adaptiveTick 1 (-5) 0 22 ⟨0, 0, 0, 0, 2, 0⟩
        ⟨⟨0, 0, 0, 0, 0, 0⟩, ⟨0, 0, 0, 0, 0, 0⟩, SpeedChange.noChange,
          false, 0, 0, 0, -1⟩).2 = some SpeedChange.slower
    ∧ (adaptiveTick 1 (-5) 0 22 ⟨0, 0, 0, 0, 2, 0⟩
        ⟨⟨0, 0, 0, 0, 0, 0⟩, ⟨0, 0, 0, 0, 0, 0⟩, SpeedChange.noChange,
          false, 0, 0, 0, -1⟩).1.compressionLevel = 1
    ∧ ¬((1 : Int) ≤ 0)
    ∧ ¬((1 : Int) = -1 + 1 ∨ (1 : Int) = -1 - 1) := by
  refine ⟨by decide, by decide, by decide, by decide⟩

/-- C9 (amended): at every correction tick that applies a speed change,
the pushed level is never 0 and, provided neither adaptive bound is
exactly 0 and the old level lies in
`[minAdaptLevel, maxAdaptLevel] ∩ [minCLevel, maxCLevel]` (with
`minCLevel < 0 < maxCLevel` and `minCLevel ≤ minAdaptLevel`, as the codec
constants and `FIO_setAdaptMin` guarantee), the new level stays inside
that intersection; it moves one step in the correction direction, or two
when the single step would land on the reserved level 0. -/
theorem claim_C9_levelUpdate_amended (nbWorkers : Nat)
    (minCLevel minA maxA maxC : Int)
    (zfp : ZSTD_frameProgression) (st st' : AdaptState) (sc : SpeedChange)
    (htick : adaptiveTick nbWorkers minA maxA maxC zfp st = (st', some sc))
    (hsc : sc ≠ SpeedChange.noChange)
    (hmc1 : minCLevel < 0) (hmc2 : 0 < maxC) (hma : minCLevel ≤ minA)
    (hA : minA ≠ 0) (hB : maxA ≠ 0)
    (hl1 : minA ≤ st.compressionLevel) (hl2 : st.compressionLevel ≤ maxA)
    (hl4 : st.compressionLevel ≤ maxC) (hl0 : st.compressionLevel ≠ 0) :
    st'.compressionLevel ≠ 0
    ∧ minA ≤ st'.compressionLevel ∧ st'.compressionLevel ≤ maxA
    ∧ minCLevel ≤ st'.compressionLevel ∧ st'.compressionLevel ≤ maxC
    ∧ (sc = SpeedChange.slower →
        st.compressionLevel ≤ st'.compressionLevel
        ∧ st'.compressionLevel ≤ st.compressionLevel + 2
        ∧ (st'.compressionLevel = st.compressionLevel + 2 →
            st.compressionLevel + 1 = 0))
    ∧ (sc = SpeedChange.faster →
        st'.compressionLevel ≤ st.compressionLevel
        ∧ st.compressionLevel - 2 ≤ st'.compressionLevel
        ∧ (st'.compressionLevel = st.compressionLevel - 2 →
            st.compressionLevel - 1 = 0)) := by
  unfold adaptiveTick at htick
  by_cases hjob : zfp.currentJobID > st.lastJobID
  case neg =>
    rw [if_neg hjob] at htick
    have := congrArg Prod.snd htick
    simp at this
  rw [if_pos hjob] at htick
  simp only [Prod.mk.injEq, Option.some.injEq] at htick
  obtain ⟨hst', hscEq⟩ := htick
  have hlvl2 : (checkInputSpeed nbWorkers zfp (checkOutputSpeed zfp st)).compressionLevel
      = st.compressionLevel := by
    rw [checkInputSpeed_level]
    exact (checkOutputSpeed_keeps zfp st).2.2.2.2
  have hlevel : st'.compressionLevel
      = applySpeedChange minA maxA maxC sc st.compressionLevel := by
    rw [← hst']
    simp only []
    rw [hlvl2, hscEq]
  cases sc with
  | noChange => exact absurd rfl hsc
  | slower =>
    obtain ⟨c1, c2, c3, c4, c5, c6, c7, c8⟩ :=
      applySpeedChange_slower_spec minCLevel minA maxA maxC st.compressionLevel
        hmc1 hmc2 hma hB hl1 hl2 hl4 hl0
    rw [hlevel]
    exact ⟨c1, c2, c3, c4, c5,
      fun _ => ⟨c6, c7, c8⟩, fun h => absurd h (by decide)⟩
  | faster =>
    obtain ⟨c1, c2, c3, c4, c5, c6, c7, c8⟩ :=
      applySpeedChange_faster_spec minCLevel minA maxA maxC st.compressionLevel
        hmc1 hmc2 hma hA hl1 hl2 hl4 hl0
    rw [hlevel]
    exact ⟨c1, c2, c3, c4, c5,
      fun h => absurd h (by decide), fun _ => ⟨c6, c7, c8⟩⟩

/-- Witness for C9 (amended): concrete slower correction from level 3 with
bounds `[-5, 22]`, codec range `[-131072, 22]`. -/
theorem claim_C9_levelUpdate_amended_witness :
    adaptiveTick 1 (-5) 22 22 ⟨0, 0, 0, 0, 2, 0⟩
        ⟨⟨0, 0, 0, 0, 0, 0⟩, ⟨0, 0, 0, 0, 0, 0⟩, SpeedChange.noChange,
          false, 0, 0, 0, 3⟩
      = (⟨⟨0, 0, 0, 0, 2, 0⟩, ⟨0, 0, 0, 0, 0, 0⟩, SpeedChange.noChange,
          false, 0, 0, 2, 4⟩, some SpeedChange.slower)
    ∧ ((⟨⟨0, 0, 0, 0, 2, 0⟩, ⟨0, 0, 0, 0, 0, 0⟩, SpeedChange.noChange,
          false, 0, 0, 2, 4⟩ : AdaptState).compressionLevel ≠ 0
      ∧ (-5 : Int) ≤ (⟨⟨0, 0, 0, 0, 2, 0⟩, ⟨0, 0, 0, 0, 0, 0⟩,
          SpeedChange.noChange, false, 0, 0, 2, 4⟩ : AdaptState).compressionLevel
      ∧ (⟨⟨0, 0, 0, 0, 2, 0⟩, ⟨0, 0, 0, 0, 0, 0⟩, SpeedChange.noChange,
          false, 0, 0, 2, 4⟩ : AdaptState).compressionLevel ≤ 22
      ∧ (-131072 : Int) ≤ (⟨⟨0, 0, 0, 0, 2, 0⟩, ⟨0, 0, 0, 0, 0, 0⟩,
          SpeedChange.noChange, false, 0, 0, 2, 4⟩ : AdaptState).compressionLevel
      ∧ (⟨⟨0, 0, 0, 0, 2, 0⟩, ⟨0, 0, 0, 0, 0, 0⟩, SpeedChange.noChange,
          false, 0, 0, 2, 4⟩ : AdaptState).compressionLevel ≤ 22
      ∧ (SpeedChange.slower = SpeedChange.slower →
          (⟨⟨0, 0, 0, 0, 0, 0⟩, ⟨0, 0, 0, 0, 0, 0⟩, SpeedChange.noChange,
            false, 0, 0, 0, 3⟩ : AdaptState).compressionLevel
            ≤ (⟨⟨0, 0, 0, 0, 2, 0⟩, ⟨0, 0, 0, 0, 0, 0⟩, SpeedChange.noChange,
                false, 0, 0, 2, 4⟩ : AdaptState).compressionLevel
          ∧ (⟨⟨0, 0, 0, 0, 2, 0⟩, ⟨0, 0, 0, 0, 0, 0⟩, SpeedChange.noChange,
              false, 0, 0, 2, 4⟩ : AdaptState).compressionLevel
            ≤ (⟨⟨0, 0, 0, 0, 0, 0⟩, ⟨0, 0, 0, 0, 0, 0⟩, SpeedChange.noChange,
                false, 0, 0, 0, 3⟩ : AdaptState).compressionLevel + 2
          ∧ ((⟨⟨0, 0, 0, 0, 2, 0⟩, ⟨0, 0, 0, 0, 0, 0⟩, SpeedChange.noChange,
              false, 0, 0, 2, 4⟩ : AdaptState).compressionLevel
              = (⟨⟨0, 0, 0, 0, 0, 0⟩, ⟨0, 0, 0, 0, 0, 0⟩, SpeedChange.noChange,
                  false, 0, 0, 0, 3⟩ : AdaptState).compressionLevel + 2 →
              (⟨⟨0, 0, 0, 0, 0, 0⟩, ⟨0, 0, 0, 0, 0, 0⟩, SpeedChange.noChange,
                false, 0, 0, 0, 3⟩ : AdaptState).compressionLevel + 1 = 0))
      ∧ (SpeedChange.slower = SpeedChange.faster →
          (⟨⟨0, 0, 0, 0, 2, 0⟩, ⟨0, 0, 0, 0, 0, 0⟩, SpeedChange.noChange,
              false, 0, 0, 2, 4⟩ : AdaptState).compressionLevel
            ≤ (⟨⟨0, 0, 0, 0, 0, 0⟩, ⟨0, 0, 0, 0, 0, 0⟩, SpeedChange.noChange,
                false, 0, 0, 0, 3⟩ : AdaptState).compressionLevel
          ∧ (⟨⟨0, 0, 0, 0, 0, 0⟩, ⟨0, 0, 0, 0, 0, 0⟩, SpeedChange.noChange,
              false, 0, 0, 0, 3⟩ : AdaptState).compressionLevel - 2
            ≤ (⟨⟨0, 0, 0, 0, 2, 0⟩, ⟨0, 0, 0, 0, 0, 0⟩, SpeedChange.noChange,
                false, 0, 0, 2, 4⟩ : AdaptState).compressionLevel
          ∧ ((⟨⟨0, 0, 0, 0, 2, 0⟩, ⟨0, 0, 0, 0, 0, 0⟩, SpeedChange.noChange,
              false, 0, 0, 2, 4⟩ : AdaptState).compressionLevel
              = (⟨⟨0, 0, 0, 0, 0, 0⟩, ⟨0, 0, 0, 0, 0, 0⟩, SpeedChange.noChange,
                  false, 0, 0, 0, 3⟩ : AdaptState).compressionLevel - 2 →
              (⟨⟨0, 0, 0, 0, 0, 0⟩, ⟨0, 0, 0, 0, 0, 0⟩, SpeedChange.noChange,
                false, 0, 0, 0, 3⟩ : AdaptState).compressionLevel - 1 = 0))) :=
  ⟨by decide,
    claim_C9_levelUpdate_amended 1 (-131072) (-5) 22 22 ⟨0, 0, 0, 0, 2, 0⟩
      ⟨⟨0, 0, 0, 0, 0, 0⟩, ⟨0, 0, 0, 0, 0, 0⟩, SpeedChange.noChange,
        false, 0, 0, 0, 3⟩
      ⟨⟨0, 0, 0, 0, 2, 0⟩, ⟨0, 0, 0, 0, 0, 0⟩, SpeedChange.noChange,
        false, 0, 0, 2, 4⟩
      SpeedChange.slower (by decide) (by decide) (by decide) (by decide)
      (by decide) (by decide) (by decide) (by decide) (by decide)
      (by decide) (by decide)⟩

/-! ### Read accounting and EOF checks of `FIO_compressZstdFrame` (fileio.c)

The main compression loop reads up to `srcBufferSize` bytes per iteration,
accumulates `*readsize`, and sets the end directive once a read returns 0
bytes or `*readsize` equals the file size.  After the loop it raises a
read I/O error if the stream error flag is set, and otherwise the
"Incomplete read" error when the file size is known and `*readsize`
differs from it.  The codec calls and compressed writes do not influence
this accounting and are not modelled (writes are assumed to succeed).
`fileSize = none` models `UTIL_FILESIZE_UNKNOWN`; `srcLen` is the number
of bytes the source actually delivers before EOF. -/

def readLoopGo (bufSize : Nat) (fileSize : Option Nat) :
    Nat → Nat → Nat → Nat
  | 0, remaining, acc => acc + min bufSize remaining
  | fuel+1, remaining, acc =>
    let inSize := min bufSize remaining
    let acc2 := acc + inSize
    if inSize = 0 ∨ some acc2 = fileSize then acc2
    else readLoopGo bufSize fileSize fuel (remaining - inSize) acc2

/-- Total number of bytes read from the source by the main loop of
`FIO_compressZstdFrame`. -/
def FIO_compressZstdFrame_readsize (bufSize srcLen : Nat)
    (fileSize : Option Nat) : Nat :=
  readLoopGo bufSize fileSize srcLen srcLen 0

/-- The pledged source size (fileio.c lines 1352-1359): the real file size
when known, else `streamSrcSize` when positive, else unknown. -/
def pledgedSrcSize (fileSize : Option Nat) (streamSrcSize : Nat) : Option Nat :=
  match fileSize with
  | some f => some f
  | none => if streamSrcSize > 0 then some streamSrcSize else none

inductive ZstdCompressErr where
  | readIOError
  | incompleteRead
  deriving Repr, DecidableEq

/-- End-of-loop error checks of `FIO_compressZstdFrame` (fileio.c lines
1539-1545): `ferror` first, then the incomplete-read check — which
consults only the real file size, never `streamSrcSize`. -/
def FIO_compressZstdFrame_endCheck (bufSize srcLen : Nat)
    (fileSize : Option Nat) (ferror : Bool) : Except ZstdCompressErr Nat :=
  let readsize := FIO_compressZstdFrame_readsize bufSize srcLen fileSize
  if ferror then Except.error ZstdCompressErr.readIOError
  else match fileSize with
    | some f =>
      if readsize ≠ f then Except.error ZstdCompressErr.incompleteRead
      else Except.ok readsize
    | none => Except.ok readsize

/-- Counterexample to C4: with the file size unknown and the pledge coming
from `stream_src_size = 10`, a source that delivers only 2 bytes ends the
run without any error — the truncation check tests only the real file
size. -/
theorem claim_C4_counterexample :
    pledgedSrcSize none 10 = some 10
    ∧ FIO_compressZstdFrame_readsize 4 2 none = 2
    ∧ 2 < 10
    ∧ FIO_compressZstdFrame_endCheck 4 2 none false = Except.ok 2 := by
  refine ⟨rfl, rfl, by omega, rfl⟩

theorem readLoopGo_total (bufSize f : Nat) (hbs : 0 < bufSize) :
    ∀ (fuel remaining acc : Nat), remaining ≤ fuel → acc + remaining < f →
    readLoopGo bufSize (some f) fuel remaining acc = acc + remaining := by
  intro fuel
  induction fuel with
  | zero =>
    intro remaining acc hfu _
    have : remaining = 0 := by omega
    subst this
    simp [readLoopGo]
  | succ fuel ih =>
    intro remaining acc hfu hlt
    by_cases hrem : remaining = 0
    · subst hrem
      simp [readLoopGo]
    · have hin : min bufSize remaining ≠ 0 := by
        simp only [ne_eq, Nat.min_eq_zero_iff]
        omega
      have hne : ¬(min bufSize remaining = 0
          ∨ some (acc + min bufSize remaining) = some f) := by
        simp only [not_or, Option.some.injEq]
        constructor
        · exact hin
        · have : min bufSize remaining ≤ remaining := Nat.min_le_right _ _
          omega
      simp only [readLoopGo, if_neg hne]
      have hmin : min bufSize remaining ≤ remaining := Nat.min_le_right _ _
      rw [ih (remaining - min bufSize remaining) (acc + min bufSize remaining)
        (by omega) (by omega)]
      omega

/-- C4 (amended): when the real file size is known, the source delivers
fewer bytes than that size, and the stream reports no error flag, the
compression loop ends with the "Incomplete read" error.  A pledge that
comes only from `stream_src_size` (file size unknown) does not trigger
this check. -/
theorem claim_C4_incompleteRead_amended (bufSize srcLen f : Nat)
    (hbs : 0 < bufSize) (hlt : srcLen < f) :
    FIO_compressZstdFrame_endCheck bufSize srcLen (some f) false
      = Except.error ZstdCompressErr.incompleteRead := by
  have hread : FIO_compressZstdFrame_readsize bufSize srcLen (some f) = srcLen := by
    unfold FIO_compressZstdFrame_readsize
    have := readLoopGo_total bufSize f hbs srcLen srcLen 0 (Nat.le_refl _) (by omega)
    simpa using this
  unfold FIO_compressZstdFrame_endCheck
  simp only [hread, Bool.false_eq_true, if_false]
  rw [if_pos (by omega)]

/-- Witness for C4 (amended): buffer 4, source delivers 2 bytes, file size
10. -/
theorem claim_C4_incompleteRead_amended_witness :
    (0 < 4 ∧ 2 < 10)
    ∧ FIO_compressZstdFrame_endCheck 4 2 (some 10) false
      = Except.error ZstdCompressErr.incompleteRead :=
  ⟨⟨by omega, by omega⟩,
    claim_C4_incompleteRead_amended 4 2 10 (by omega) (by omega)⟩

/-! ### Per-file source lifecycle (fileio.c)

`FIO_compressFilename_srcFile` and `FIO_decompressSrcFile` as decision
functions over the outcomes of their filesystem probes and the engine run.
The returned pair is (operation result, whether removal of the source file
was requested via `FIO_removeFile`).  In the compression variant a failed
removal terminates the process (`EXM_THROW(1)`); in the decompression
variant it turns the result into 1. -/

/-- Shallow embedding of `FIO_compressFilename_srcFile` (fileio.c):
directory check, source-equals-dictionary check, `--exclude-compressed`
skip, source open, engine run, then conditional source removal. -/
def FIO_compressFilename_srcFile (prefs : FIO_prefs_t)
    (srcIsDirectory srcSameAsDict excludeCompressedFiles srcIsCompressed
      srcOpenOk : Bool) (engineResult : Nat) (srcIsStdin : Bool) : Nat × Bool :=
  if srcIsDirectory then (1, false)
  else if srcSameAsDict then (1, false)
  else if excludeCompressedFiles ∧ srcIsCompressed then (0, false)
  else if srcOpenOk = false then (1, false)
  else if prefs.removeSrcFile = true ∧ engineResult = 0 ∧ srcIsStdin = false then
    (engineResult, true)
  else (engineResult, false)

/-- Shallow embedding of `FIO_decompressSrcFile` (fileio.c): directory
check, source open, engine run, source close (a failed close returns 1
before any removal), then conditional source removal. -/
def FIO_decompressSrcFile (prefs : FIO_prefs_t)
    (srcIsDirectory srcOpenOk : Bool) (engineResult : Nat)
    (fcloseOk srcIsStdin removeOk : Bool) : Nat × Bool :=
  if srcIsDirectory then (1, false)
  else if srcOpenOk = false then (1, false)
  else if fcloseOk = false then (1, false)
  else if prefs.removeSrcFile = true ∧ engineResult = 0 ∧ srcIsStdin = false then
    (if removeOk then engineResult else 1, true)
  else (engineResult, false)

/-- C5: in both the compression and the decompression per-file drivers,
removal of the source file is requested only when the engine run returned
success (0), the `removeSrcFile` preference is set, and the source is not
stdin. -/
theorem claim_C5_sourcePreservation (prefs : FIO_prefs_t)
    (d1 d2 d3 d4 d5 : Bool) (rc : Nat) (s1 : Bool)
    (e1 e2 : Bool) (rd : Nat) (f1 s2 r1 : Bool) :
    ((FIO_compressFilename_srcFile prefs d1 d2 d3 d4 d5 rc s1).2 = true →
      prefs.removeSrcFile = true ∧ rc = 0 ∧ s1 = false)
    ∧ ((FIO_decompressSrcFile prefs e1 e2 rd f1 s2 r1).2 = true →
      prefs.removeSrcFile = true ∧ rd = 0 ∧ s2 = false) := by
  constructor
  · intro h
    unfold FIO_compressFilename_srcFile at h
    split_ifs at h <;> simp_all
  · intro h
    unfold FIO_decompressSrcFile at h
    split_ifs at h <;> simp_all

/-- Witness for C5 at a concrete run: removal requested in both drivers
under `removeSrcFile` with engine success on a non-stdin source. -/
theorem claim_C5_sourcePreservation_witness :
    ((FIO_compressFilename_srcFile ⟨false, 1, false, true, 0, false, 0, 0, 0, 0⟩
        false false false false true 0 false).2 = true →
      (⟨false, 1, false, true, 0, false, 0, 0, 0, 0⟩ : FIO_prefs_t).removeSrcFile = true
        ∧ 0 = 0 ∧ false = false)
    ∧ ((FIO_decompressSrcFile ⟨false, 1, false, true, 0, false, 0, 0, 0, 0⟩
        false true 0 true false true).2 = true →
      (⟨false, 1, false, true, 0, false, 0, 0, 0, 0⟩ : FIO_prefs_t).removeSrcFile = true
        ∧ 0 = 0 ∧ false = false) :=
  claim_C5_sourcePreservation ⟨false, 1, false, true, 0, false, 0, 0, 0, 0⟩
    false false false false true 0 false false true 0 true false true

/-! ### Dictionary loader (`FIO_createDictBuffer`, fileio.c)

Decision structure of the loader: absent path loads nothing; open failure,
unknown size, oversize and short read are fatal; otherwise the whole file
is read.  `memLimit` caps the size in patch-from mode, `DICTSIZE_MAX`
(32 MB) otherwise.  Allocation is assumed to succeed (`EXM_THROW(34)`
terminates the process). -/

def DICTSIZE_MAX : Nat := 33554432

inductive DictErr where
  | openFailed
  | sizeUnknown
  | tooLarge
  | readFailed
  deriving Repr, DecidableEq

/-- Shallow embedding of `FIO_createDictBuffer` (fileio.c). `content` is
the byte stream the opened file delivers; `fileSize` is the stat size
(`none` for `UTIL_FILESIZE_UNKNOWN`). -/
def FIO_createDictBuffer (prefs : FIO_prefs_t) (fileName : Option (List Char))
    (fileOpens : Bool) (fileSize : Option Nat) (content : List Nat) :
    Except DictErr (List Nat) :=
  match fileName with
  | none => Except.ok []
  | some _ =>
    if fileOpens = false then Except.error DictErr.openFailed
    else match fileSize with
      | none => Except.error DictErr.sizeUnknown
      | some sz =>
        let dictSizeMax := if prefs.patchFromMode then prefs.memLimit else DICTSIZE_MAX
        if sz > dictSizeMax then Except.error DictErr.tooLarge
        else if (content.take sz).length ≠ sz then Except.error DictErr.readFailed
        else Except.ok (content.take sz)

/-- C7: every successfully loaded dictionary is no larger than `memLimit`
in patch-from mode and no larger than 32 MiB otherwise, and an absent
dictionary path loads an empty dictionary. -/
theorem claim_C7_dictBuffer (prefs : FIO_prefs_t) (fileName : Option (List Char))
    (fileOpens : Bool) (fileSize : Option Nat) (content : List Nat) :
    (∀ d, FIO_createDictBuffer prefs fileName fileOpens fileSize content
        = Except.ok d →
      d.length ≤ (if prefs.patchFromMode then prefs.memLimit else 33554432))
    ∧ (fileName = none →
        FIO_createDictBuffer prefs fileName fileOpens fileSize content
          = Except.ok []) := by
  constructor
  · intro d hd
    unfold FIO_createDictBuffer at hd
    cases fileName with
    | none =>
      simp only [Except.ok.injEq] at hd
      subst hd
      simp
    | some p =>
      by_cases ho : fileOpens = false
      · rw [if_pos ho] at hd
        exact absurd hd (by simp)
      · rw [if_neg ho] at hd
        cases fileSize with
        | none => exact absurd hd (by simp)
        | some sz =>
          simp only [] at hd
          by_cases hsz : sz > (if prefs.patchFromMode then prefs.memLimit
              else DICTSIZE_MAX)
          · rw [if_pos hsz] at hd
            exact absurd hd (by simp)
          · rw [if_neg hsz] at hd
            by_cases hrd : (content.take sz).length ≠ sz
            · rw [if_pos hrd] at hd
              exact absurd hd (by simp)
            · rw [if_neg hrd] at hd
              simp only [Except.ok.injEq] at hd
              subst hd
              push_neg at hrd
              rw [hrd]
              unfold DICTSIZE_MAX at hsz
              omega
  · intro h
    subst h
    rfl

/-- Witness for C7: a present 3-byte dictionary under the 32 MiB cap, and
the absent-path case. -/
theorem claim_C7_dictBuffer_witness :
    (FIO_createDictBuffer ⟨false, 1, false, false, 0, false, 0, 0, 0, 0⟩
        (some ['d']) true (some 3) [1, 2, 3] = Except.ok [1, 2, 3] →
      ([1, 2, 3] : List Nat).length
        ≤ (if (⟨false, 1, false, false, 0, false, 0, 0, 0, 0⟩ : FIO_prefs_t).patchFromMode
            then (⟨false, 1, false, false, 0, false, 0, 0, 0, 0⟩ : FIO_prefs_t).memLimit
            else 33554432))
    ∧ FIO_createDictBuffer ⟨false, 1, false, false, 0, false, 0, 0, 0, 0⟩
        none true (some 3) [1, 2, 3] = Except.ok [] :=
  ⟨(claim_C7_dictBuffer ⟨false, 1, false, false, 0, false, 0, 0, 0, 0⟩
      (some ['d']) true (some 3) [1, 2, 3]).1 [1, 2, 3],
   (claim_C7_dictBuffer ⟨false, 1, false, false, 0, false, 0, 0, 0, 0⟩
      none true (some 3) [1, 2, 3]).2 rfl⟩

/-! ### Destination-name derivation (`FIO_determineDstName` / `suffixList`, fileio.c)

Filenames are `List Char`.  The extension string values live in
programs/fileio.h (not under src/); they are modelled from the spec, which
names the recognized set `.zst/.tzst/.zstd/.gz/.tgz/.lzma/.xz/.txz/.lz4/.tlz4`
for a build with every decompression backend compiled in, and the tar
shorthand rule.  `suffixList` mirrors the C array in order. -/

def ZSTD_EXTENSION : List Char := ['.', 'z', 's', 't']

def TZSTD_EXTENSION : List Char := ['.', 't', 'z', 's', 't']

def ZSTD_ALT_EXTENSION : List Char := ['.', 'z', 's', 't', 'd']

def GZ_EXTENSION : List Char := ['.', 'g', 'z']

def TGZ_EXTENSION : List Char := ['.', 't', 'g', 'z']

def LZMA_EXTENSION : List Char := ['.', 'l', 'z', 'm', 'a']

def XZ_EXTENSION : List Char := ['.', 'x', 'z']

def TXZ_EXTENSION : List Char := ['.', 't', 'x', 'z']

def LZ4_EXTENSION : List Char := ['.', 'l', 'z', '4']

def TLZ4_EXTENSION : List Char := ['.', 't', 'l', 'z', '4']

def suffixList : List (List Char) :=
  [ZSTD_EXTENSION, TZSTD_EXTENSION, ZSTD_ALT_EXTENSION,
   GZ_EXTENSION, TGZ_EXTENSION,
   LZMA_EXTENSION, XZ_EXTENSION, TXZ_EXTENSION,
   LZ4_EXTENSION, TLZ4_EXTENSION]

/-- `strrchr(srcFileName, ".")`: the suffix starting at the last dot of
the name (dot included), or `none` when the name has no dot. -/
def lastDotSuffix : List Char → Option (List Char)
  | [] => none
  | c :: rest =>
    match lastDotSuffix rest with
    | some suf => some suf
    | none => if c = '.' then some (c :: rest) else none

/-- Shallow embedding of `FIO_determineDstName` (fileio.c), without an
output directory: find the last-dot suffix (no dot means failure), fail
when the whole name is the suffix or the suffix is not in `suffixList`,
otherwise strip the suffix, appending `.tar` when the matched suffix's
second character is `t` (the short tar forms). -/
def FIO_determineDstName (srcFileName : List Char) : Option (List Char) :=
  match lastDotSuffix srcFileName with
  | none => none
  | some srcSuffix =>
    if srcFileName.length ≤ srcSuffix.length ∨ srcSuffix ∉ suffixList then none
    else
      let dstSuffix := if srcSuffix.getD 1 ' ' = 't'
        then ['.', 't', 'a', 'r'] else []
      some (srcFileName.take (srcFileName.length - srcSuffix.length) ++ dstSuffix)

theorem lastDotSuffix_isSuffix : ∀ (src suf : List Char),
    lastDotSuffix src = some suf → ∃ stem, src = stem ++ suf := by
  intro src
  induction src with
  | nil =>
    intro suf h
    simp [lastDotSuffix] at h
  | cons c rest ih =>
    intro suf h
    simp only [lastDotSuffix] at h
    cases hr : lastDotSuffix rest with
    | some s =>
      rw [hr] at h
      simp only [Option.some.injEq] at h
      obtain ⟨stem, hstem⟩ := ih s hr
      exact ⟨c :: stem, by rw [List.cons_append, ← h, ← hstem]⟩
    | none =>
      rw [hr] at h
      by_cases hc : c = '.'
      · rw [if_pos hc] at h
        simp only [Option.some.injEq] at h
        exact ⟨[], by rw [List.nil_append, h]⟩
      · rw [if_neg hc] at h
        exact absurd h (by simp)

theorem FIO_determineDstName_none_case (src : List Char)
    (h : lastDotSuffix src = none) : FIO_determineDstName src = none := by
  unfold FIO_determineDstName
  rw [h]

theorem FIO_determineDstName_some_case (src suf : List Char)
    (hlds : lastDotSuffix src = some suf) :
    FIO_determineDstName src
      = if src.length ≤ suf.length ∨ suf ∉ suffixList then none
        else some (src.take (src.length - suf.length)
            ++ (if suf.getD 1 ' ' = 't' then ['.', 't', 'a', 'r'] else [])) := by
  unfold FIO_determineDstName
  rw [hlds]

/-- Counterexample to C8: the name `".zst"` — a recognized suffix with an
empty stem — makes `FIO_determineDstName` return NULL even though the
suffix is recognized, refuting "returns NULL if and only if the source's
suffix is unrecognized". -/
theorem claim_C8_counterexample :
    lastDotSuffix ['.', 'z', 's', 't'] = some ['.', 'z', 's', 't']
    ∧ ['.', 'z', 's', 't'] ∈ suffixList
    ∧ FIO_determineDstName ['.', 'z', 's', 't'] = none := by
  refine ⟨by decide, by decide, by decide⟩

/-- C8 (amended): the derivation returns NULL if and only if the name has
no recognized last-dot suffix with a non-empty stem; otherwise it strips
exactly that one suffix and appends `.tar` when the suffix is one of the
short tar forms (second character `t`). -/
theorem claim_C8_dstName_amended (src : List Char) :
    (FIO_determineDstName src = none ↔
      ¬ ∃ stem suf, suf ∈ suffixList ∧ stem ≠ [] ∧ src = stem ++ suf
          ∧ lastDotSuffix src = some suf)
    ∧ (∀ stem suf, suf ∈ suffixList → stem ≠ [] → src = stem ++ suf →
        lastDotSuffix src = some suf →
        FIO_determineDstName src
          = some (stem ++ (if suf.getD 1 ' ' = 't'
              then ['.', 't', 'a', 'r'] else []))) := by
  have hpos : ∀ stem suf, suf ∈ suffixList → stem ≠ [] → src = stem ++ suf →
      lastDotSuffix src = some suf →
      FIO_determineDstName src
        = some (stem ++ (if suf.getD 1 ' ' = 't'
            then ['.', 't', 'a', 'r'] else [])) := by
    intro stem suf hmem hstem hsrc hlds
    have hlen : src.length = stem.length + suf.length := by
      rw [hsrc, List.length_append]
    have hstemlen : 0 < stem.length := List.length_pos.mpr hstem
    have hcond : ¬(src.length ≤ suf.length ∨ suf ∉ suffixList) := by
      simp only [not_or, not_le, not_not]
      exact ⟨by omega, hmem⟩
    rw [FIO_determineDstName_some_case src suf hlds, if_neg hcond]
    simp only [Option.some.injEq]
    have htake : src.length - suf.length = stem.length := by omega
    rw [htake, hsrc, List.take_left]
  refine ⟨⟨?_, ?_⟩, hpos⟩
  · intro hnone hex
    obtain ⟨stem, suf, hmem, hstem, hsrc, hlds⟩ := hex
    have := hpos stem suf hmem hstem hsrc hlds
    rw [hnone] at this
    exact absurd this (by simp)
  · intro hnex
    cases hlds : lastDotSuffix src with
    | none => exact FIO_determineDstName_none_case src hlds
    | some suf =>
      rw [FIO_determineDstName_some_case src suf hlds]
      by_cases hcond : src.length ≤ suf.length ∨ suf ∉ suffixList
      · rw [if_pos hcond]
      · exfalso
        simp only [not_or, not_le, not_not] at hcond
        obtain ⟨stem, hsrc⟩ := lastDotSuffix_isSuffix src suf hlds
        apply hnex
        refine ⟨stem, suf, hcond.2, ?_, hsrc, hlds⟩
        intro hst
        subst hst
        rw [List.nil_append] at hsrc
        subst hsrc
        omega

/-- Witness for C8 (amended): `file.tgz` decompresses to `file.tar`. -/
theorem claim_C8_dstName_amended_witness :
    FIO_determineDstName ['f', 'i', 'l', 'e', '.', 't', 'g', 'z']
      = some ['f', 'i', 'l', 'e', '.', 't', 'a', 'r'] :=
  ((claim_C8_dstName_amended ['f', 'i', 'l', 'e', '.', 't', 'g', 'z']).2
    ['f', 'i', 'l', 'e'] ['.', 't', 'g', 'z']
    (by decide) (by decide) (by decide) (by decide)).trans (by decide)

/-- The hypothesis of the C2 theorem is an invariant: a tick never leaves
`speedChange = faster` behind — the correction block that could set it
also consumes and resets it. -/
theorem adaptiveTick_speedChange_invariant (nbWorkers : Nat)
    (minA maxA maxC : Int) (zfp : ZSTD_frameProgression) (st : AdaptState)
    (h : st.speedChange ≠ SpeedChange.faster) :
    (adaptiveTick nbWorkers minA maxA maxC zfp st).1.speedChange
      ≠ SpeedChange.faster := by
  unfold adaptiveTick
  by_cases hjob : zfp.currentJobID > st.lastJobID
  · rw [if_pos hjob]
    simp only []
    exact fun hf => absurd hf (by decide)
  · rw [if_neg hjob]
    simp only []
    exact fun hf => h (checkOutputSpeed_sc zfp st hf)
